import Mathlib

/-
Verification of the streaming voice-commerce backend
(`backend/src/orchestration/agent/optimized_agent.py`,
`backend/src/orchestration/agent/fast_agent.py`,
`backend/src/orchestration/tools/registry.py`,
`backend/src/infrastructure/api/routes.py`).

Python strings are modelled as `List Char`.  The regular expression
`[.!?]+\s+` (the sentence-boundary separator used by both agents) is
modelled by an explicit left-to-right scanner: a separator is a maximal
run of sentence punctuation followed by a maximal run of whitespace,
starting at the leftmost position where such a match exists — exactly
the leftmost, greedy semantics of `re.split`.  `\s` is modelled on its
ASCII cases (space, tab, newline, carriage return, vertical tab, form
feed), which covers every string appearing in the system.
-/

namespace VoiceAgent

abbrev Str := List Char

/-- The sentence-ending punctuation class `[.!?]` used by both agents. -/
def isPunctC (c : Char) : Bool :=
  c == '.' || c == '!' || c == '?'

/-- The whitespace class `\s` of the boundary regex, on its ASCII cases. -/
def isSpaceC (c : Char) : Bool :=
  c == ' ' || c == '\t' || c == '\n' || c == '\r' ||
    c == Char.ofNat 11 || c == Char.ofNat 12

/-- Truthiness of `s.strip()` for a Python string: true iff some
character is not whitespace. -/
def hasNonSpace (s : Str) : Bool :=
  s.any (fun c => !isSpaceC c)

/-- `endsBoundary p` holds iff `p` ends with at least one `[.!?]`
character followed by at least one whitespace character, i.e. the
scanner has just finished matching (a prefix of) the separator
`[.!?]+\s+` at the end of `p`. -/
def endsBoundary (p : Str) : Bool :=
  !(p.reverse.takeWhile isSpaceC).isEmpty &&
    (match p.reverse.dropWhile isSpaceC with
     | c :: _ => isPunctC c
     | [] => false)

/-- Scanner for `re.split(r'([.!?]+\s+)', text)` followed by the
reconstruction loop of `OptimizedVoiceAgent._extract_sentences`
(each separator is glued back onto the text before it).  The first
component is the list of finished entries (text together with its
trailing separator); the second component is the pending entry that
has not yet been terminated by a full separator-then-more-text.
An entry is finished exactly when a non-whitespace character arrives
while the pending entry already ends in punctuation-plus-whitespace. -/
def scanAux : Str → Str → List Str × Str
  | p, [] => ([], p)
  | p, c :: cs =>
    if endsBoundary p && !isSpaceC c then
      let r := scanAux [c] cs
      (p :: r.1, r.2)
    else
      scanAux (p ++ [c]) cs

/-- The full reconstructed split list of
`re.split(r'([.!?]+\s+)', text)`: the emitted entries, then the pending
entry; when the string ends inside a separator `re.split` additionally
produces a final empty part. -/
def splitChunks (s : Str) : List Str :=
  let r := scanAux [] s
  r.1 ++ (if endsBoundary r.2 then [r.2, []] else [r.2])

/-- `OptimizedVoiceAgent._extract_sentences`: split on sentence endings,
reconstruct each sentence with its punctuation, and keep only the parts
that are non-blank (`[s for s in result if s.strip()]`). -/
def extract_sentences (text : Str) : List Str :=
  (splitChunks text).filter hasNonSpace

/-- One round of the optimized agent's streaming chunk loop
(`optimized_agent.py` lines 150-167 and 210-225): append the new text
delta to the sentence buffer, extract sentences, emit all but the last
(each checked for `sentence.strip()`), and keep the last extracted
sentence as the new buffer; if nothing was extracted the appended
buffer is kept unchanged.  Returns (emitted sentences, new buffer). -/
def feedOpt (buf delta : Str) : List Str × Str :=
  let u := buf ++ delta
  let ss := extract_sentences u
  if ss.isEmpty then ([], u)
  else ((ss.dropLast).filter hasNonSpace, ss.getLastD [])

/-- Feeding a list of deltas through the optimized agent's chunk loop,
accumulating all emitted sentences and the final buffer. -/
def feedManyOpt (ds : List Str) : List Str × Str :=
  ds.foldl (fun acc d => let r := feedOpt acc.2 d; (acc.1 ++ r.1, r.2)) ([], [])

/-! ### The fast agent's chunker (`fast_agent.py` lines 227-255) -/

/-- `listBegins pat s` : `pat` is an initial segment of `s`. -/
def listBegins : Str → Str → Bool
  | [], _ => true
  | _ :: _, [] => false
  | p :: ps, c :: cs => p == c && listBegins ps cs

/-- Index of the first occurrence of `pat` in `hay`, if any
(Python `str.find` semantics, with `none` for -1). -/
def findOcc (hay pat : Str) : Option Nat :=
  (List.range (hay.length + 1)).find? (fun i => listBegins pat (hay.drop i))

/-- Python `hay.find(pat)`: first index or -1. -/
def pyFind (hay pat : Str) : Int :=
  match findOcc hay pat with
  | some i => (i : Int)
  | none => -1

/-- Python slice `t[i:]` for a possibly negative integer index. -/
def pyDropInt (t : Str) (i : Int) : Str :=
  if 0 ≤ i then t.drop i.toNat
  else t.drop (t.length - min t.length i.natAbs)

/-- `re.search(r'[.!?]+', t)`: the first maximal run of sentence
punctuation in `t`, if any. -/
def searchPunctRun (t : Str) : Option Str :=
  let rest := t.dropWhile (fun c => !isPunctC c)
  if rest.isEmpty then none else some (rest.takeWhile isPunctC)

/-- Strip a trailing separator (whitespace run, then punctuation run)
from a finished split entry, recovering the corresponding part of
`re.split(r'[.!?]+[\s]+', text)` without the capture group. -/
def sepStrip (e : Str) : Str :=
  (((e.reverse).dropWhile isSpaceC).dropWhile isPunctC).reverse

/-- The parts of `re.split(r'[.!?]+[\s]+', text)` (no capture group):
every finished entry loses its trailing separator; the final pending
part is kept as is. -/
def pyParts (text : Str) : List Str :=
  let es := splitChunks text
  es.dropLast.map sepStrip ++ [es.getLastD []]

/-- Python `s.strip()`. -/
def pyStrip (s : Str) : Str :=
  ((s.dropWhile isSpaceC).reverse.dropWhile isSpaceC).reverse

/-- Python `t.replace(pat, '', 1)`: remove the first occurrence. -/
def pyReplace1 (t pat : Str) : Str :=
  if pat.isEmpty then t
  else
    match findOcc t pat with
    | some i => t.take i ++ t.drop (i + pat.length)
    | none => t

/-- `FastVoiceAgent._extract_complete_sentences`: split on the boundary
regex; if more than one part, every part but the last with non-blank
text is looked up again in the original text with `text.find`, the
first punctuation run after that position is appended back, and the
result collected. -/
def fastExtract (text : Str) : List Str :=
  let parts := pyParts text
  if parts.length > 1 then
    (List.range (parts.length - 1)).foldl
      (fun acc i =>
        let p := parts.getD i []
        if hasNonSpace p then
          let pos : Int := pyFind text p + (p.length : Int)
          match searchPunctRun (pyDropInt text pos) with
          | some g => acc ++ [p ++ g]
          | none => acc
        else acc)
      []
  else []

/-- `FastVoiceAgent._get_sentence_remainder`: re-extract the complete
sentences and delete each one (first occurrence) from the text,
stripping after every deletion. -/
def fastRemainder (text : Str) : Str :=
  (fastExtract text).foldl (fun t s => pyStrip (pyReplace1 t s)) text

/-- One round of the fast agent's streaming chunk loop
(`fast_agent.py` lines 105-120): append the delta, extract complete
sentences, emit all of them, and replace the buffer by the computed
remainder; if no sentence was extracted the appended buffer is kept. -/
def fastFeed (buf delta : Str) : List Str × Str :=
  let u := buf ++ delta
  let ss := fastExtract u
  if ss.isEmpty then ([], u) else (ss, fastRemainder u)

/-- Feeding a list of deltas through the fast agent's chunk loop. -/
def fastFeedMany (ds : List Str) : List Str × Str :=
  ds.foldl (fun acc d => let r := fastFeed acc.2 d; (acc.1 ++ r.1, r.2)) ([], [])

/-! ### Python dicts, `SimpleInterruptManager` (`routes.py` lines 25-57)
and `ToolRegistry.register` (`registry.py` lines 26-33).
A dict is modelled as an association list with unique keys; lookup,
update-or-insert, and `pop(key, None)` mirror dict operations. -/

/-- Dict lookup `m.get(k)` / `m[k]` (as an `Option`). -/
def dget {τ : Type} : List (Str × τ) → Str → Option τ
  | [], _ => none
  | (k', v) :: rest, k => if k' = k then some v else dget rest k

/-- Dict membership `k in m`. -/
def dcontains {τ : Type} (m : List (Str × τ)) (k : Str) : Bool :=
  (dget m k).isSome

/-- Dict assignment `m[k] = v` (update in place or append). -/
def dset {τ : Type} : List (Str × τ) → Str → τ → List (Str × τ)
  | [], k, v => [(k, v)]
  | (k', v') :: rest, k, v =>
    if k' = k then (k, v) :: rest else (k', v') :: dset rest k v

/-- Dict removal `m.pop(k, None)` (state effect only). -/
def dpop {τ : Type} : List (Str × τ) → Str → List (Str × τ)
  | [], _ => []
  | (k', v') :: rest, k =>
    if k' = k then dpop rest k else (k', v') :: dpop rest k

/-- State of `SimpleInterruptManager`: the two dicts
`active_sessions` and `interrupt_flags`. -/
structure InterruptManager where
  active_sessions : List (Str × Bool)
  interrupt_flags : List (Str × Bool)
deriving DecidableEq

/-- The freshly constructed manager: two empty dicts. -/
def emptyManager : InterruptManager := ⟨[], []⟩

/-- `register_session`: set `active_sessions[sid] = True` and
`interrupt_flags[sid] = False`. -/
def register_session (m : InterruptManager) (sid : Str) : InterruptManager :=
  ⟨dset m.active_sessions sid true, dset m.interrupt_flags sid false⟩

/-- `interrupt_session`: if the session is registered, set its flag and
return `True`; otherwise return `False` with no state change. -/
def interrupt_session (m : InterruptManager) (sid : Str) :
    Bool × InterruptManager :=
  if dcontains m.active_sessions sid then
    (true, ⟨m.active_sessions, dset m.interrupt_flags sid true⟩)
  else (false, m)

/-- `is_interrupted`: `interrupt_flags.get(sid, False)`. -/
def is_interrupted (m : InterruptManager) (sid : Str) : Bool :=
  (dget m.interrupt_flags sid).getD false

/-- `clear_interrupt`: reset the flag if present, else do nothing. -/
def clear_interrupt (m : InterruptManager) (sid : Str) : InterruptManager :=
  if dcontains m.interrupt_flags sid then
    ⟨m.active_sessions, dset m.interrupt_flags sid false⟩
  else m

/-- `cleanup_session`: `pop` the session from both dicts. -/
def cleanup_session (m : InterruptManager) (sid : Str) : InterruptManager :=
  ⟨dpop m.active_sessions sid, dpop m.interrupt_flags sid⟩

/-- One call against the interrupt manager (the read-only
`is_interrupted` leaves the state unchanged). -/
inductive MgrOp where
  | regOp (sid : Str)
  | intOp (sid : Str)
  | checkOp (sid : Str)
  | clearOp (sid : Str)
  | cleanOp (sid : Str)

/-- State effect of one interrupt-manager call. -/
def applyOp (m : InterruptManager) : MgrOp → InterruptManager
  | .regOp sid => register_session m sid
  | .intOp sid => (interrupt_session m sid).2
  | .checkOp _ => m
  | .clearOp sid => clear_interrupt m sid
  | .cleanOp sid => cleanup_session m sid

/-- Running a sequence of calls from the freshly constructed manager. -/
def runOps (ops : List MgrOp) : InterruptManager :=
  ops.foldl applyOp emptyManager

/-- `ToolRegistry.register` (`registry.py` lines 26-33): a duplicate
name without `override` is skipped (warning logged, no exception);
otherwise `_tools[tool.name] = tool`. -/
def registry_register {τ : Type} (m : List (Str × τ)) (name : Str)
    (tool : τ) (override : Bool) : List (Str × τ) :=
  if dcontains m name && !override then m else dset m name tool

/-! ### The optimized agent's tool executor
(`optimized_agent.py` lines 259-317).

`json.loads`, the registry contents, and the span
`await tool.execute(**args)` … data conversion … `json.dumps` are
library / IO calls; they are parameters of the model (`ToolEnv`), each
returning `Except` with the exception text on the error side.  The two
`json.dumps` result shapes the executor produces,
`dumps({success: True, data: ...})` and
`dumps({success: False, error: ...})`, are modelled by the two
constructors of `RContent`. -/

/-- The serialized `content` string of one tool result. -/
inductive RContent where
  | success_data (data : Str)
  | failure (error : Str)
deriving DecidableEq

/-- One entry of the executor's `results` list. -/
structure ToolResult where
  tool_call_id : Str
  content : RContent
deriving DecidableEq

/-- An accumulated tool call (`optimized_agent.py` lines 137-141):
`id` is the truthy provider id; `name` is `function.name` (possibly
Python `None`, kept as `Option`) or `""` when no function was given;
`arguments` is the accumulated arguments string. -/
structure ToolCallRec where
  id : Str
  name : Option Str
  arguments : Str
deriving DecidableEq

/-- Environment of the executor: `json.loads` (also covering a `**args`
unpacking failure), and the registry dict whose tools map parsed
arguments to the serialized data string or a raised exception. -/
structure ToolEnv (α : Type) where
  emptyArgs : α
  parse : Str → Except Str α
  tools : Str → Option (α → Except Str Str)

/-- Message of `ToolNotFoundError(tool_name)` from
`shared/exceptions.py`: `Tool '<name>' not found in registry`. -/
def toolNotFoundMsg (n : Str) : Str :=
  ("Tool ".toList) ++ [Char.ofNat 39] ++ n ++ [Char.ofNat 39] ++
    (" not found in registry".toList)

/-- Python `str()` of the accumulated tool name for the f-string
`"Unknown tool: ..."` (`None` prints as `None`). -/
def pyShowName : Option Str → Str
  | none => ("None".toList)
  | some s => s

/-- The hard-coded allowlist check
`tool_name in ["get_product_catalog", "get_product_details", "check_inventory"]`. -/
def allowedName (n : Option Str) : Bool :=
  match n with
  | some s =>
    s == ("get_product_catalog".toList) ||
      s == ("get_product_details".toList) ||
      s == ("check_inventory".toList)
  | none => false

/-- One iteration of `OptimizedVoiceAgent._execute_tools`: parse the
arguments (empty string means `{}`), check the allowlist, look the tool
up (`registry.get` raises `ToolNotFoundError` when absent — caught by
the per-call `except`), run it, and record exactly one result carrying
this call's id; every raised exception becomes a `success: False`
result with the exception text. -/
def execOneOpt {α : Type} (env : ToolEnv α) (tc : ToolCallRec) : ToolResult :=
  let argsE : Except Str α :=
    if tc.arguments.isEmpty then .ok env.emptyArgs else env.parse tc.arguments
  match argsE with
  | .error e => ⟨tc.id, .failure e⟩
  | .ok args =>
    if allowedName tc.name then
      match env.tools (pyShowName tc.name) with
      | none => ⟨tc.id, .failure (toolNotFoundMsg (pyShowName tc.name))⟩
      | some run =>
        match run args with
        | .error e => ⟨tc.id, .failure e⟩
        | .ok data => ⟨tc.id, .success_data data⟩
    else ⟨tc.id, .failure (("Unknown tool: ".toList) ++ pyShowName tc.name)⟩

/-- `OptimizedVoiceAgent._execute_tools`: the loop appending one result
per tool call. -/
def execute_tools {α : Type} (env : ToolEnv α) (calls : List ToolCallRec) :
    List ToolResult :=
  calls.foldl (fun results tc => results ++ [execOneOpt env tc]) []

/-! ### The fast agent's tool executor (`fast_agent.py` lines 184-225).
The duck-typed extraction of name/args/id is modelled by a record that
already carries them; the tool body (execute, data conversion,
`json.dumps`) is one fallible call. -/

/-- Outcome of one fast-agent tool body: a raised exception, or a
returned `ToolResult` object (success flag, serialized data,
`error` attribute). -/
inductive FastRun where
  | raises (msg : Str)
  | returns (success : Bool) (dataJson : Str) (error : Option Str)

/-- The serialized `content` of a fast-executor result:
`json.dumps(data)` on success, `json.dumps({error: ...})` otherwise. -/
inductive FContent where
  | data_payload (d : Str)
  | err_payload (e : Option Str)
deriving DecidableEq

/-- One entry of the fast executor's `results` list. -/
structure FastResult where
  content : FContent
  tool_call_id : Str
deriving DecidableEq

/-- A tool call as seen by the fast executor after its name/args/id
extraction. -/
structure FastToolCall (β : Type) where
  name : Str
  args : β
  id : Str

/-- `FastVoiceAgent._execute_tools`: for each call, if the name is in
`tool_map`, run it (exceptions become an error result); a name not in
`tool_map` appends NOTHING — there is no else branch. -/
def fast_execute_tools {β : Type} (tool_map : Str → Option (β → FastRun))
    (calls : List (FastToolCall β)) : List FastResult :=
  calls.foldl
    (fun results tc =>
      match tool_map tc.name with
      | some run =>
        match run tc.args with
        | .raises m => results ++ [⟨.err_payload (some m), tc.id⟩]
        | .returns ok d e =>
          if ok then results ++ [⟨.data_payload d, tc.id⟩]
          else results ++ [⟨.err_payload e, tc.id⟩]
      | none => results)
    []

/-! ### `OptimizedVoiceAgent.process_message_streaming`
(`optimized_agent.py` lines 75-257).

The two OpenAI streaming calls are IO; a run of the engine is driven by
a `Script` recording the deltas each stream produced before it ended or
raised.  `primary_fails` (resp. `secondary_fails`) means the
corresponding provider call raised after the listed deltas — covering a
failure of `create` itself when the list is empty.  `delta.content` of
`None` and `""` behave identically (both falsy), so content is a plain
string; an absent `tool_calls` and an empty list likewise coincide.
`function.arguments` of `None` on the delta that opens a tool call is
modelled as `""` (the two differ in Python only if a later delta
appends to it, which raises and lands in the same catch-all apology
path). -/

/-- `delta.tool_calls[j].function`. -/
structure FnDelta where
  name : Option Str
  arguments : Option Str

/-- One entry of `delta.tool_calls`. -/
structure ToolCallDelta where
  index : Nat
  id : Option Str
  function : Option FnDelta

/-- One streamed delta. -/
structure StreamDelta where
  content : Str
  tool_calls : List ToolCallDelta

/-- Python truthiness of an optional string (`None` and `""` falsy). -/
def optTruthy : Option Str → Bool
  | some s => !s.isEmpty
  | none => false

/-- Tool-call accumulation (`optimized_agent.py` lines 131-147): a delta
with `index == 0` and a truthy id finishes the current record and opens
a new one; otherwise, if a record is open, its arguments are extended
and its name overwritten when the fragment carries truthy values. -/
def accToolDelta (st : Option ToolCallRec × List ToolCallRec)
    (tcd : ToolCallDelta) : Option ToolCallRec × List ToolCallRec :=
  if tcd.index == 0 && optTruthy tcd.id then
    let pushed := match st.1 with
      | some c => st.2 ++ [c]
      | none => st.2
    let newCur : ToolCallRec :=
      { id := tcd.id.getD []
        name := match tcd.function with
          | some f => f.name
          | none => some []
        arguments := match tcd.function with
          | some f => f.arguments.getD []
          | none => [] }
    (some newCur, pushed)
  else
    match st.1 with
    | none => st
    | some c =>
      let c1 := match tcd.function with
        | some f =>
          if optTruthy f.arguments then
            { c with arguments := c.arguments ++ f.arguments.getD [] }
          else c
        | none => c
      let c2 := match tcd.function with
        | some f => if optTruthy f.name then { c1 with name := f.name } else c1
        | none => c1
      (some c2, st.2)

/-- An event yielded by the streaming engine. -/
inductive AgentEvent where
  | text_chunk (content : Str) (trigger_tts : Bool)
  | completion (full_response : Str)
deriving DecidableEq

/-- `true` exactly on `completion` events. -/
def isCompletionEv : AgentEvent → Bool
  | .completion _ => true
  | .text_chunk _ _ => false

/-- Loop state of one engine run: `full_response`, `sentence_buffer`,
`current_tool_call`, `tool_calls`, and the events yielded so far. -/
structure StreamState where
  full : Str
  buffer : Str
  current : Option ToolCallRec
  tool_calls : List ToolCallRec
  events : List AgentEvent
deriving DecidableEq

/-- The content branch of the streaming loops (`optimized_agent.py`
lines 149-167 and 208-225): on truthy content, extend `full_response`
and the sentence buffer, emit the complete sentences, and keep the
remainder. -/
def contentStep (st : StreamState) (c : Str) : StreamState :=
  if c.isEmpty then st
  else
    let r := feedOpt st.buffer c
    { st with
        full := st.full ++ c
        buffer := r.2
        events := st.events ++ r.1.map (fun s => AgentEvent.text_chunk s true) }

/-- One primary-stream delta: tool-call accumulation, then content. -/
def primDeltaStep (st : StreamState) (d : StreamDelta) : StreamState :=
  let st1 :=
    if d.tool_calls.isEmpty then st
    else
      let r := d.tool_calls.foldl accToolDelta (st.current, st.tool_calls)
      { st with current := r.1, tool_calls := r.2 }
  contentStep st1 d.content

/-- One secondary-stream delta: content only. -/
def secDeltaStep (st : StreamState) (d : StreamDelta) : StreamState :=
  contentStep st d.content

/-- The scripted behavior of the two provider streaming calls. -/
structure Script where
  primary : List StreamDelta
  primary_fails : Bool
  secondary : List StreamDelta
  secondary_fails : Bool

/-- The apology text of the catch-all handler
(`optimized_agent.py` line 248). -/
def apologyMsg : Str :=
  ("I apologize, but I encountered an error. Please try again.".toList)

/-- The two events yielded by the catch-all handler. -/
def apologyEvents : List AgentEvent :=
  [.text_chunk apologyMsg true, .completion apologyMsg]

/-- The loop state at the start of a run. -/
def initState : StreamState := ⟨[], [], none, [], []⟩

/-- State after consuming the primary stream. -/
def primEnd (script : Script) : StreamState :=
  script.primary.foldl primDeltaStep initState

/-- `if current_tool_call: tool_calls.append(current_tool_call)`
(lines 170-171). -/
def finalizeCalls (st : StreamState) : List ToolCallRec :=
  match st.current with
  | some c => st.tool_calls ++ [c]
  | none => st.tool_calls

/-- The chunk-loop state after all deltas (primary, and secondary when a
tool round ran) have been consumed on the non-raising path. -/
def finalChunkState (script : Script) : StreamState :=
  let st1 := primEnd script
  if (finalizeCalls st1).isEmpty then st1
  else script.secondary.foldl secDeltaStep st1

/-- The tail of the happy path (lines 227-244): flush a non-blank
remaining buffer as one last chunk, then yield `completion` with the
full response. -/
def finishEvents (st : StreamState) : List AgentEvent :=
  st.events ++
    (if hasNonSpace st.buffer then [AgentEvent.text_chunk st.buffer true] else []) ++
    [AgentEvent.completion st.full]

/-- `OptimizedVoiceAgent.process_message_streaming` as the list of
events one run yields, given the scripted provider behavior: stream the
primary deltas (a raise lands in the catch-all apology handler),
execute the accumulated tool calls if any and stream the secondary
deltas (again with the apology handler on a raise), then flush and
complete. -/
def process_message_streaming {α : Type} (env : ToolEnv α) (script : Script) :
    List AgentEvent :=
  let st1 := primEnd script
  if script.primary_fails then st1.events ++ apologyEvents
  else
    let tcs := finalizeCalls st1
    if tcs.isEmpty then finishEvents st1
    else
      let _results := execute_tools env tcs
      let st2 := script.secondary.foldl secDeltaStep st1
      if script.secondary_fails then st2.events ++ apologyEvents
      else finishEvents st2

/-! ### `FastVoiceAgent.process_message_streaming`
(`fast_agent.py` lines 54-182).

Same scripted-stream treatment as the optimized agent.  A streamed
chunk either carries a truthy `tool_calls` list — then the tool calls
with a truthy id are collected and the chunk's content is skipped by
the `continue` — or its truthy content is run through the chunk loop
(`fastFeed`).  After the primary stream, a non-empty collected list
triggers tool execution and the secondary content-only stream; the tail
(lines 167-182) flushes a buffer with truthy `strip()` as one final
chunk and yields `completion`.  The fast agent has no `try/except`, so
only runs in which both provider streams return normally are modelled. -/

/-- One entry of a fast-agent chunk's `tool_calls` list; `id` is the
field the collection loop tests for truthiness. -/
structure FastTcDelta where
  id : Option Str
deriving DecidableEq

/-- One streamed chunk of the fast agent's LLM streams. -/
structure FastDelta where
  tool_calls : List FastTcDelta
  content : Str
deriving DecidableEq

/-- Loop state of one fast-agent run: `full_response`,
`sentence_buffer`, the collected `tool_calls`, and the events yielded
so far. -/
structure FastStreamState where
  full : Str
  buffer : Str
  tool_calls : List FastTcDelta
  events : List AgentEvent
deriving DecidableEq

/-- The fast agent's loop state at the start of a run. -/
def fastInitState : FastStreamState := ⟨[], [], [], []⟩

/-- One primary-stream chunk of the fast agent (`fast_agent.py` lines
96-120): a truthy `tool_calls` list collects the truthy-id entries and
`continue`s; otherwise truthy content is appended and chunked through
`fastFeed`, emitting every extracted sentence. -/
def fastPrimStep (st : FastStreamState) (d : FastDelta) : FastStreamState :=
  if !d.tool_calls.isEmpty then
    { st with tool_calls :=
        st.tool_calls ++ d.tool_calls.filter (fun tc => optTruthy tc.id) }
  else if d.content.isEmpty then st
  else
    let r := fastFeed st.buffer d.content
    { st with
        full := st.full ++ d.content
        buffer := r.2
        events := st.events ++ r.1.map (fun s => AgentEvent.text_chunk s true) }

/-- One secondary-stream chunk of the fast agent (lines 151-165):
content only. -/
def fastSecStep (st : FastStreamState) (d : FastDelta) : FastStreamState :=
  if d.content.isEmpty then st
  else
    let r := fastFeed st.buffer d.content
    { st with
        full := st.full ++ d.content
        buffer := r.2
        events := st.events ++ r.1.map (fun s => AgentEvent.text_chunk s true) }

/-- The scripted behavior of the fast agent's two provider streams. -/
structure FastScript where
  primary : List FastDelta
  secondary : List FastDelta

/-- The fast agent's loop state after all deltas are consumed: the
primary fold, then — iff any tool call was collected (line 123) — the
secondary fold. -/
def fastFinalState (fs : FastScript) : FastStreamState :=
  let st1 := fs.primary.foldl fastPrimStep fastInitState
  if st1.tool_calls.isEmpty then st1
  else fs.secondary.foldl fastSecStep st1

/-- `FastVoiceAgent.process_message_streaming` as the list of events
one successful run yields: the events of the chunk loops, then the
final flush of a buffer with truthy `strip()` (lines 167-173), then the
`completion` carrying the full response (lines 179-182). -/
def fast_process_streaming (fs : FastScript) : List AgentEvent :=
  (fastFinalState fs).events ++
    (if hasNonSpace (fastFinalState fs).buffer
      then [AgentEvent.text_chunk (fastFinalState fs).buffer true] else []) ++
    [AgentEvent.completion (fastFinalState fs).full]

/-! ### The websocket session handler's `text.input` branch
(`routes.py` lines 225-298).  `generate_tts` is IO: a parameter mapping
the chunk text to a raised exception or a TTS response object. -/

/-- The fields of a TTS response the handler reads. -/
structure TtsResponse where
  success : Bool
  audio_base64 : Str
  format : Str
deriving DecidableEq

/-- Outbound websocket messages of the `text.input` branch. -/
inductive OutMsg where
  | text_chunk_msg (text : Str) (chunk_id : Nat)
  | audio_chunk_msg (audio_base64 : Str) (format : Str) (chunk_id : Nat) (text : Str)
  | agent_response (text : Str) (chunks_sent : Nat)
  | error_msg (message : Str)
deriving DecidableEq

/-- `true` exactly on `error` messages. -/
def isErrorMsg : OutMsg → Bool
  | .error_msg _ => true
  | _ => false

/-- Handling of one agent event (`routes.py` lines 243-298): a
triggering text chunk sends `text.chunk` and then attempts synthesis —
`audio.chunk` on success, and on a failed response or a raised
exception only a log line, no outbound message; a completion sends
`agent.response` with the full text and the chunk count. -/
def handleEvent (tts : Str → Except Str TtsResponse)
    (st : Nat × List OutMsg) (ev : AgentEvent) : Nat × List OutMsg :=
  match ev with
  | .text_chunk s trig =>
    if trig then
      let cnt := st.1 + 1
      let out := st.2 ++ [OutMsg.text_chunk_msg s cnt]
      match tts s with
      | .ok r =>
        if r.success then
          (cnt, out ++ [OutMsg.audio_chunk_msg r.audio_base64 r.format cnt s])
        else (cnt, out)
      | .error _ => (cnt, out)
    else st
  | .completion f => (st.1, st.2 ++ [OutMsg.agent_response f st.1])

/-- The `text.input` branch: fold the agent's events through
`handleEvent`, starting with zero chunks sent. -/
def handle_text_input (tts : Str → Except Str TtsResponse)
    (evs : List AgentEvent) : List OutMsg :=
  (evs.foldl (handleEvent tts) (0, [])).2

/-! ### Concrete sample data used by witnesses and counterexamples -/

/-- A trivial executor environment over `Unit` arguments. -/
def envU : ToolEnv Unit :=
  ⟨(), fun _ => .ok (), fun _ => none⟩

/-- A script whose primary stream produces one plain content delta. -/
def helloScript : Script :=
  ⟨[⟨("Hello".toList), []⟩], false, [], false⟩

/-- A script whose primary stream produces a single whitespace delta. -/
def blankScript : Script :=
  ⟨[⟨(" ".toList), []⟩], false, [], false⟩

/-- A script whose primary call itself raises. -/
def failScript : Script := ⟨[], true, [], false⟩

/-- A fast-agent script whose primary stream produces one plain content
delta. -/
def fastHelloScript : FastScript := ⟨[⟨[], ("Hello".toList)⟩], []⟩

/-- A fast-agent script whose primary stream produces a single
whitespace delta. -/
def fastBlankScript : FastScript := ⟨[⟨[], (" ".toList)⟩], []⟩

/-- A TTS stub whose synthesis always reports failure. -/
def ttsAlwaysFail : Str → Except Str TtsResponse :=
  fun _ => .ok ⟨false, [], []⟩

/-- A TTS stub whose synthesis always succeeds. -/
def ttsAlwaysOk : Str → Except Str TtsResponse :=
  fun s => .ok ⟨true, s, ("wav".toList)⟩

/-- Two chunk events and a completion, as produced for a two-sentence
response. -/
def demoEvents : List AgentEvent :=
  [.text_chunk ("Hi. ".toList) true, .completion ("Hi. ".toList)]

/-- `true` exactly on text chunks with `trigger_tts` set — the events
the handler counts. -/
def isTriggerChunk : AgentEvent → Bool
  | .text_chunk _ b => b
  | .completion _ => false

/-- An executor environment with one registered tool that always
raises, a parse function that fails on the string `bad`, and `Unit`
arguments. -/
def envSample : ToolEnv Unit where
  emptyArgs := ()
  parse := fun s => if s = ("bad".toList) then .error ("parse error".toList) else .ok ()
  tools := fun n =>
    if n = ("get_product_catalog".toList) then some (fun _ => .error ("boom".toList))
    else none

/-- Four sample tool calls: an unknown name, a parse failure, a raising
tool, and an allowlisted name that is not registered. -/
def callsSample : List ToolCallRec :=
  [⟨("id1".toList), some ("mystery".toList), ("x".toList)⟩,
   ⟨("id2".toList), some ("get_product_catalog".toList), ("bad".toList)⟩,
   ⟨("id3".toList), some ("get_product_catalog".toList), []⟩,
   ⟨("id4".toList), some ("get_product_details".toList), []⟩]

/-- The manager state after registering sessions `A` and `B` and
interrupting `A`. -/
def twoSessionDemo : InterruptManager :=
  (interrupt_session
    (register_session (register_session emptyManager ("A".toList)) ("B".toList))
    ("A".toList)).2

/-! ## Dict lemmas -/

theorem dget_dset {τ : Type} (m : List (Str × τ)) (s k : Str) (v : τ) :
    dget (dset m s v) k = if s = k then some v else dget m k := by
  induction m with
  | nil =>
    by_cases h : s = k <;> simp [dset, dget, h]
  | cons kv rest ih =>
    obtain ⟨k', v'⟩ := kv
    by_cases h1 : k' = s
    · subst h1
      simp only [dset, if_pos rfl]
      by_cases h2 : k' = k <;> simp [dget, h2]
    · simp only [dset, if_neg h1]
      by_cases h2 : k' = k
      · have h3 : ¬s = k := fun hh => h1 (h2.trans hh.symm)
        simp [dget, h2, h3]
      · simp [dget, h2, ih]

theorem dget_dpop {τ : Type} (m : List (Str × τ)) (s k : Str) :
    dget (dpop m s) k = if s = k then none else dget m k := by
  induction m with
  | nil => by_cases h : s = k <;> simp [dpop, dget, h]
  | cons kv rest ih =>
    obtain ⟨k', v'⟩ := kv
    by_cases h1 : k' = s
    · subst h1
      simp only [dpop, if_pos rfl]
      by_cases h2 : k' = k
      · subst h2; simp [ih]
      · simp [dget, h2, ih]
    · simp only [dpop, if_neg h1]
      by_cases h2 : k' = k
      · have h3 : ¬s = k := fun hh => h1 (h2.trans hh.symm)
        simp [dget, h2, h3]
      · simp [dget, h2, ih]

theorem dcontains_dset {τ : Type} (m : List (Str × τ)) (s k : Str) (v : τ) :
    dcontains (dset m s v) k = if s = k then true else dcontains m k := by
  unfold dcontains
  rw [dget_dset]
  by_cases h : s = k <;> simp [h]

theorem dcontains_dpop {τ : Type} (m : List (Str × τ)) (s k : Str) :
    dcontains (dpop m s) k = if s = k then false else dcontains m k := by
  unfold dcontains
  rw [dget_dpop]
  by_cases h : s = k <;> simp [h]

/-! ## Claim C5 -/

/-- Claim C5: for a session id that is not registered with the
interrupt coordinator (in any state whose flag dict tracks exactly the
registered sessions), `interrupt_session` returns `False` and leaves
the state unchanged, `is_interrupted` returns `False`, and
`clear_interrupt` is a no-op; all three are total functions, so none
can raise. -/
theorem unregistered_session_ops (m : InterruptManager) (sid : Str)
    (hinv : ∀ k, dcontains m.active_sessions k = dcontains m.interrupt_flags k)
    (h : dcontains m.active_sessions sid = false) :
    interrupt_session m sid = (false, m) ∧
    is_interrupted m sid = false ∧
    clear_interrupt m sid = m := by
  have hf : dcontains m.interrupt_flags sid = false := (hinv sid).symm.trans h
  have hg : dget m.interrupt_flags sid = none := by
    have := hf
    unfold dcontains at this
    exact Option.not_isSome_iff_eq_none.mp (by simp [this])
  refine ⟨?_, ?_, ?_⟩
  · simp [interrupt_session, h]
  · simp [is_interrupted, hg]
  · simp [clear_interrupt, hf]

/-- Witness for C5 at the fresh manager and the session id
`never-registered`. -/
theorem unregistered_session_ops_witness :
    interrupt_session emptyManager ("never-registered".toList) =
      (false, emptyManager) ∧
    is_interrupted emptyManager ("never-registered".toList) = false ∧
    clear_interrupt emptyManager ("never-registered".toList) = emptyManager :=
  unregistered_session_ops emptyManager ("never-registered".toList)
    (fun _ => rfl) rfl

/-! ## Claim C6 -/

/-- Claim C6: interrupt state is session-isolated — for distinct ids
`a` and `b`, interrupting, clearing or cleaning up `a` changes neither
`is_interrupted b` nor `b`'s registration status; and concretely, after
registering `A` and `B` and interrupting `A`, `A` reads interrupted and
`B` does not. -/
theorem interrupt_isolation (m : InterruptManager) (a b : Str) (hab : a ≠ b) :
    is_interrupted (interrupt_session m a).2 b = is_interrupted m b ∧
    dcontains (interrupt_session m a).2.active_sessions b =
      dcontains m.active_sessions b ∧
    is_interrupted (clear_interrupt m a) b = is_interrupted m b ∧
    dcontains (clear_interrupt m a).active_sessions b =
      dcontains m.active_sessions b ∧
    is_interrupted (cleanup_session m a) b = is_interrupted m b ∧
    dcontains (cleanup_session m a).active_sessions b =
      dcontains m.active_sessions b ∧
    is_interrupted twoSessionDemo ("A".toList) = true ∧
    is_interrupted twoSessionDemo ("B".toList) = false := by
  refine ⟨?_, ?_, ?_, ?_, ?_, ?_, by decide, by decide⟩
  · unfold interrupt_session
    by_cases h : dcontains m.active_sessions a = true
    · simp [h, is_interrupted, dget_dset, if_neg hab]
    · simp [eq_false_of_ne_true h]
  · unfold interrupt_session
    by_cases h : dcontains m.active_sessions a = true
    · simp [h]
    · simp [eq_false_of_ne_true h]
  · unfold clear_interrupt
    by_cases h : dcontains m.interrupt_flags a = true
    · simp [h, is_interrupted, dget_dset, if_neg hab]
    · simp [eq_false_of_ne_true h]
  · unfold clear_interrupt
    by_cases h : dcontains m.interrupt_flags a = true
    · simp [h]
    · simp [eq_false_of_ne_true h]
  · unfold cleanup_session is_interrupted
    rw [dget_dpop]
    simp [if_neg hab]
  · unfold cleanup_session
    simp only
    rw [dcontains_dpop]
    simp [if_neg hab]

/-- Witness for C6 at the two-session demo state and ids `A`, `B`. -/
theorem interrupt_isolation_witness :
    is_interrupted (interrupt_session twoSessionDemo ("A".toList)).2
        ("B".toList) =
      is_interrupted twoSessionDemo ("B".toList) ∧
    is_interrupted twoSessionDemo ("A".toList) = true ∧
    is_interrupted twoSessionDemo ("B".toList) = false := by
  have h := interrupt_isolation twoSessionDemo ("A".toList) ("B".toList)
    (by decide)
  exact ⟨h.1, h.2.2.2.2.2.2.1, h.2.2.2.2.2.2.2⟩

/-! ## Claim C9 -/

/-- Claim C9: `ToolRegistry.register` keeps the existing tool and leaves
the registry unchanged when the name is already present and `override`
is false; with `override`, or under a fresh name, it stores the given
tool under that name; it is a total function (a duplicate never
raises). -/
theorem register_tool_spec {τ : Type} (m : List (Str × τ)) (n : Str) (t : τ) :
    (dcontains m n = true → registry_register m n t false = m) ∧
    registry_register m n t true = dset m n t ∧
    (dcontains m n = false → ∀ b, registry_register m n t b = dset m n t) ∧
    dget (registry_register m n t true) n = some t ∧
    (dcontains m n = false → ∀ b, dget (registry_register m n t b) n = some t) := by
  refine ⟨?_, ?_, ?_, ?_, ?_⟩
  · intro h; simp [registry_register, h]
  · simp [registry_register]
  · intro h b; simp [registry_register, h]
  · simp [registry_register, dget_dset]
  · intro h b
    simp [registry_register, h, dget_dset]

/-- Witness for C9 over a one-tool registry of naturals. -/
theorem register_tool_spec_witness :
    registry_register [(("get_product_catalog".toList), 1)]
        ("get_product_catalog".toList) 2 false =
      [(("get_product_catalog".toList), 1)] ∧
    dget (registry_register [(("get_product_catalog".toList), 1)]
        ("get_product_catalog".toList) 2 true) ("get_product_catalog".toList) =
      some 2 := by
  have h := register_tool_spec [(("get_product_catalog".toList), 1)]
    ("get_product_catalog".toList) 2
  exact ⟨h.1 (by decide), h.2.2.2.1⟩

/-! ## Claim C10 -/

theorem applyOp_preserves_keys (m : InterruptManager) (op : MgrOp)
    (hinv : ∀ k, dcontains m.active_sessions k = dcontains m.interrupt_flags k) :
    ∀ k, dcontains (applyOp m op).active_sessions k =
      dcontains (applyOp m op).interrupt_flags k := by
  intro k
  cases op with
  | regOp sid =>
    simp only [applyOp, register_session, dcontains_dset]
    by_cases h : sid = k <;> simp [h, hinv k]
  | intOp sid =>
    simp only [applyOp, interrupt_session]
    by_cases h : dcontains m.active_sessions sid = true
    · simp only [h, if_true]
      rw [dcontains_dset]
      by_cases h2 : sid = k
      · subst h2; simp [h]
      · simp [h2, hinv k]
    · simp [eq_false_of_ne_true h, hinv k]
  | checkOp sid => exact hinv k
  | clearOp sid =>
    simp only [applyOp, clear_interrupt]
    by_cases h : dcontains m.interrupt_flags sid = true
    · simp only [h, if_true]
      rw [dcontains_dset]
      by_cases h2 : sid = k
      · subst h2; simp [(hinv sid).trans h]
      · simp [h2, hinv k]
    · simp [eq_false_of_ne_true h, hinv k]
  | cleanOp sid =>
    simp only [applyOp, cleanup_session, dcontains_dpop]
    by_cases h : sid = k <;> simp [h, hinv k]

theorem runOps_aux_keys (ops : List MgrOp) :
    ∀ m, (∀ k, dcontains m.active_sessions k = dcontains m.interrupt_flags k) →
      ∀ k, dcontains (ops.foldl applyOp m).active_sessions k =
        dcontains (ops.foldl applyOp m).interrupt_flags k := by
  induction ops with
  | nil => intro m hm k; exact hm k
  | cons op rest ih =>
    intro m hm k
    exact ih (applyOp m op) (applyOp_preserves_keys m op hm) k

/-- Claim C10: starting from the empty manager, after every sequence of
interrupt-manager operations the key set of `interrupt_flags` equals
the key set of `active_sessions` — no operation creates a flag for an
unregistered session or leaves a stale flag after cleanup. -/
theorem manager_keys_invariant (ops : List MgrOp) (k : Str) :
    dcontains (runOps ops).active_sessions k =
      dcontains (runOps ops).interrupt_flags k :=
  runOps_aux_keys ops emptyManager (fun _ => rfl) k

/-! ## Scanner lemmas for the sentence chunker -/

theorem scanAux_cons_pos (p : Str) (c : Char) (cs : Str)
    (h : (endsBoundary p && !isSpaceC c) = true) :
    scanAux p (c :: cs) = (p :: (scanAux [c] cs).1, (scanAux [c] cs).2) := by
  simp [scanAux, h]

theorem scanAux_cons_neg (p : Str) (c : Char) (cs : Str)
    (h : ¬(endsBoundary p && !isSpaceC c) = true) :
    scanAux p (c :: cs) = scanAux (p ++ [c]) cs := by
  simp [scanAux, h]

theorem scanAux_append (s t : Str) : ∀ p, scanAux p (s ++ t) =
    ((scanAux p s).1 ++ (scanAux (scanAux p s).2 t).1,
      (scanAux (scanAux p s).2 t).2) := by
  induction s with
  | nil => intro p; simp [scanAux]
  | cons c cs ih =>
    intro p
    rw [List.cons_append]
    by_cases h : (endsBoundary p && !isSpaceC c) = true
    · rw [scanAux_cons_pos p c (cs ++ t) h, scanAux_cons_pos p c cs h, ih [c]]
      simp
    · rw [scanAux_cons_neg p c (cs ++ t) h, scanAux_cons_neg p c cs h,
        ih (p ++ [c])]

theorem scanAux_singleton_neutral (c : Char) : scanAux [] [c] = ([], [c]) := by
  simp [scanAux, endsBoundary]

theorem scanAux_neutral (s : Str) : ∀ p, scanAux [] p = ([], p) →
    scanAux [] (scanAux p s).2 = ([], (scanAux p s).2) := by
  induction s with
  | nil => intro p hp; simpa [scanAux] using hp
  | cons c cs ih =>
    intro p hp
    by_cases h : (endsBoundary p && !isSpaceC c) = true
    · rw [scanAux_cons_pos p c cs h]
      exact ih [c] (scanAux_singleton_neutral c)
    · rw [scanAux_cons_neg p c cs h]
      refine ih (p ++ [c]) ?_
      rw [scanAux_append p [c] [], hp]
      simp only
      rw [scanAux_cons_neg p c [] h]
      simp [scanAux]

theorem scanAux_out_boundary (s : Str) : ∀ p e, e ∈ (scanAux p s).1 →
    endsBoundary e = true := by
  induction s with
  | nil => intro p e he; simp [scanAux] at he
  | cons c cs ih =>
    intro p e he
    by_cases h : (endsBoundary p && !isSpaceC c) = true
    · rw [scanAux_cons_pos p c cs h] at he
      have he' : e ∈ p :: (scanAux [c] cs).1 := he
      rcases List.mem_cons.mp he' with rfl | he''
      · rw [Bool.and_eq_true] at h
        exact h.1
      · exact ih [c] e he''
    · rw [scanAux_cons_neg p c cs h] at he
      exact ih (p ++ [c]) e he

theorem scanAux_out_nil_pend (s : Str) : ∀ p, (scanAux p s).1 = [] →
    (scanAux p s).2 = p ++ s := by
  induction s with
  | nil => intro p _; simp [scanAux]
  | cons c cs ih =>
    intro p ho
    by_cases h : (endsBoundary p && !isSpaceC c) = true
    · rw [scanAux_cons_pos p c cs h] at ho
      exact absurd ho (by simp)
    · rw [scanAux_cons_neg p c cs h] at ho ⊢
      rw [ih (p ++ [c]) ho]
      simp

theorem scanAux_pend_head (s : Str) : ∀ p c cs, p = c :: cs →
    isSpaceC c = false →
    ∃ c' cs', (scanAux p s).2 = c' :: cs' ∧ isSpaceC c' = false := by
  induction s with
  | nil =>
    intro p c cs hp hc
    exact ⟨c, cs, by simp [scanAux, hp], hc⟩
  | cons d ds ih =>
    intro p c cs hp hc
    by_cases h : (endsBoundary p && !isSpaceC d) = true
    · rw [scanAux_cons_pos p d ds h]
      have hd : isSpaceC d = false := by
        rw [Bool.and_eq_true] at h
        simpa using h.2
      exact ih [d] d [] rfl hd
    · rw [scanAux_cons_neg p d ds h]
      exact ih (p ++ [d]) c (cs ++ [d]) (by rw [hp]; rfl) hc

theorem scanAux_out_ne_pend_head (s : Str) : ∀ p, (scanAux p s).1 ≠ [] →
    ∃ c cs, (scanAux p s).2 = c :: cs ∧ isSpaceC c = false := by
  induction s with
  | nil => intro p ho; simp [scanAux] at ho
  | cons d ds ih =>
    intro p ho
    by_cases h : (endsBoundary p && !isSpaceC d) = true
    · rw [scanAux_cons_pos p d ds h]
      have hd : isSpaceC d = false := by
        rw [Bool.and_eq_true] at h
        simpa using h.2
      exact scanAux_pend_head ds [d] d [] rfl hd
    · rw [scanAux_cons_neg p d ds h] at ho ⊢
      exact ih (p ++ [d]) ho

theorem isPunctC_not_space (c : Char) (h : isPunctC c = true) :
    isSpaceC c = false := by
  unfold isPunctC at h
  rw [Bool.or_eq_true, Bool.or_eq_true] at h
  rcases h with (h1 | h2) | h3
  · rw [eq_of_beq h1]; rfl
  · rw [eq_of_beq h2]; rfl
  · rw [eq_of_beq h3]; rfl

theorem hasNonSpace_nil : hasNonSpace [] = false := rfl

theorem endsBoundary_hasNonSpace (e : Str) (h : endsBoundary e = true) :
    hasNonSpace e = true := by
  unfold endsBoundary at h
  rw [Bool.and_eq_true] at h
  have h2 := h.2
  rcases hd : e.reverse.dropWhile isSpaceC with _ | ⟨c, t⟩
  · rw [hd] at h2; simp at h2
  · rw [hd] at h2
    have hc : isPunctC c = true := h2
    have hmem : c ∈ e := by
      have hm : c ∈ e.reverse.dropWhile isSpaceC := by
        rw [hd]; exact List.mem_cons_self c t
      exact List.mem_reverse.mp (List.Sublist.mem hm (List.dropWhile_sublist _))
    unfold hasNonSpace
    refine List.any_eq_true.mpr ⟨c, hmem, ?_⟩
    simp [isPunctC_not_space c hc]

/-! ## Claim C2: equivalence of incremental and one-shot chunking
for the optimized agent -/

theorem extract_sentences_eq_scan (u : Str) : extract_sentences u =
    (scanAux [] u).1 ++
      (if hasNonSpace (scanAux [] u).2 then [(scanAux [] u).2] else []) := by
  unfold extract_sentences splitChunks
  have hout : (scanAux [] u).1.filter hasNonSpace = (scanAux [] u).1 :=
    List.filter_eq_self.mpr
      (fun e he => endsBoundary_hasNonSpace e (scanAux_out_boundary u [] e he))
  rw [List.filter_append, hout]
  by_cases hp : hasNonSpace (scanAux [] u).2 = true
  · by_cases hb : endsBoundary (scanAux [] u).2 = true <;>
      simp [hb, hp, List.filter_cons, hasNonSpace_nil]
  · have hp' : hasNonSpace (scanAux [] u).2 = false := eq_false_of_ne_true hp
    by_cases hb : endsBoundary (scanAux [] u).2 = true <;>
      simp [hb, hp', List.filter_cons, hasNonSpace_nil]

theorem feedOpt_eq (b d : Str) :
    feedOpt b d =
      if (extract_sentences (b ++ d)).isEmpty then ([], b ++ d)
      else ((extract_sentences (b ++ d)).dropLast.filter hasNonSpace,
        (extract_sentences (b ++ d)).getLastD []) := rfl

theorem feedOpt_nil_eq_scan (u : Str) : feedOpt [] u = scanAux [] u := by
  rw [feedOpt_eq, List.nil_append, extract_sentences_eq_scan u]
  by_cases hp : hasNonSpace (scanAux [] u).2 = true
  · rw [if_pos hp]
    have hne : ((scanAux [] u).1 ++ [(scanAux [] u).2]).isEmpty = false := by
      simp
    rw [hne]
    simp only [Bool.false_eq_true, if_false, List.dropLast_concat,
      List.getLastD_concat]
    have hout : (scanAux [] u).1.filter hasNonSpace = (scanAux [] u).1 :=
      List.filter_eq_self.mpr
        (fun e he => endsBoundary_hasNonSpace e (scanAux_out_boundary u [] e he))
    rw [hout]
  · have hp' : hasNonSpace (scanAux [] u).2 = false := eq_false_of_ne_true hp
    rw [if_neg hp, List.append_nil]
    rcases ho : (scanAux [] u).1 with _ | ⟨e, es⟩
    · have hpend := scanAux_out_nil_pend u [] ho
      rw [List.nil_append] at hpend
      simp only [List.isEmpty_nil, if_pos]
      rw [Prod.ext_iff]
      exact ⟨ho.symm, hpend.symm⟩
    · exfalso
      obtain ⟨c, cs, hcs, hc⟩ :=
        scanAux_out_ne_pend_head u [] (by rw [ho]; simp)
      rw [hcs] at hp'
      unfold hasNonSpace at hp'
      simp [hc] at hp'

theorem feedOpt_from_neutral (b d : Str) (hb : scanAux [] b = ([], b)) :
    feedOpt b d = ((scanAux b d).1, (scanAux b d).2) := by
  have h0 : feedOpt b d = feedOpt [] (b ++ d) := rfl
  rw [h0, feedOpt_nil_eq_scan, scanAux_append b d []]
  rw [hb]
  simp

theorem feedMany_aux (ds : List Str) : ∀ acc b, scanAux [] b = ([], b) →
    ds.foldl (fun a d => let r := feedOpt a.2 d; (a.1 ++ r.1, r.2)) (acc, b) =
      (acc ++ (scanAux b ds.flatten).1, (scanAux b ds.flatten).2) := by
  induction ds with
  | nil =>
    intro acc b hb
    simp [scanAux]
  | cons d ds ih =>
    intro acc b hb
    simp only [List.foldl_cons, feedOpt_from_neutral b d hb]
    rw [ih (acc ++ (scanAux b d).1) (scanAux b d).2 (scanAux_neutral d b hb)]
    rw [List.flatten_cons, scanAux_append d ds.flatten b]
    simp [List.append_assoc]

/-- Claim C2 (amended): for the optimized agent's chunk loop
(`_extract_sentences` plus the emit-all-but-last / keep-last loop of
`process_message_streaming`), feeding any splitting of a string
incrementally produces exactly the emitted-sentence list and final
remainder of extracting from the concatenated string once — so no
sentence is ever re-emitted and the split points are restart-invariant.
(The fast agent's chunker violates this; see the counterexample.) -/
theorem chunking_idempotent_opt (ds : List Str) :
    feedManyOpt ds = feedOpt [] ds.flatten := by
  unfold feedManyOpt
  rw [feedMany_aux ds [] [] rfl, feedOpt_nil_eq_scan]
  simp

/-- Counterexample for C2 as stated: the fast agent's chunk loop
(`_extract_complete_sentences` / `_get_sentence_remainder`) is not
idempotent — feeding `b a. ` then `b! ` emits `b a.` and `b!` with
empty remainder, while the full buffer `b a. b! ` in one shot emits
`b a.` and `b.` (the `text.find` lookup attaches the wrong punctuation
to the repeated word `b`) and leaves remainder `b!`. -/
theorem chunking_not_idempotent_fast :
    ("b a. ".toList) ++ ("b! ".toList) = ("b a. b! ".toList) ∧
    fastFeedMany [("b a. ".toList), ("b! ".toList)] =
      ([("b a.".toList), ("b!".toList)], []) ∧
    fastFeed [] ("b a. b! ".toList) =
      ([("b a.".toList), ("b.".toList)], ("b!".toList)) ∧
    fastFeedMany [("b a. ".toList), ("b! ".toList)] ≠
      fastFeed [] (("b a. ".toList) ++ ("b! ".toList)) := by
  exact ⟨by decide, by decide, by decide, by decide⟩

/-! ## Claim C1: boundary behavior on `Dr` and `Dr. Smith is here. ` -/

/-- Claim C1 (amended): on buffer `Dr` both chunkers emit zero
sentences; but `. ` after an abbreviation IS a boundary of the regex
`[.!?]+\s+`, so on `Dr. Smith is here. ` the fast chunker returns the
two sentences `Dr.` and `Smith is here.`, and the optimized chunk loop
emits `Dr. ` and retains `Smith is here. ` as the remainder (the
trailing fragment is kept, not emitted); in general the optimized loop
only ever emits text ending in a boundary (punctuation run followed by
whitespace). -/
theorem chunker_boundary_emission :
    fastExtract ("Dr".toList) = [] ∧
    feedOpt [] ("Dr".toList) = ([], ("Dr".toList)) ∧
    fastExtract ("Dr. Smith is here. ".toList) =
      [("Dr.".toList), ("Smith is here.".toList)] ∧
    feedOpt [] ("Dr. Smith is here. ".toList) =
      ([("Dr. ".toList)], ("Smith is here. ".toList)) ∧
    ∀ u e, e ∈ (feedOpt [] u).1 → endsBoundary e = true := by
  refine ⟨by decide, by decide, by decide, by decide, ?_⟩
  intro u e he
  rw [feedOpt_nil_eq_scan] at he
  exact scanAux_out_boundary u [] e he

/-- Witness for C1's general clause at the buffer
`Dr. Smith is here. ` and the emitted sentence `Dr. `. -/
theorem chunker_boundary_emission_witness :
    (("Dr. ".toList) ∈ (feedOpt [] ("Dr. Smith is here. ".toList)).1) ∧
    endsBoundary ("Dr. ".toList) = true :=
  ⟨by decide, chunker_boundary_emission.2.2.2.2 ("Dr. Smith is here. ".toList)
    ("Dr. ".toList) (by decide)⟩

/-- Counterexample for C1 as stated: neither chunker emits exactly the
one sentence `Dr. Smith is here. ` on that buffer — the period-space
after `Dr` is treated as a boundary by the regex. -/
theorem chunker_dr_counterexample :
    fastExtract ("Dr. Smith is here. ".toList) ≠
      [("Dr. Smith is here. ".toList)] ∧
    (feedOpt [] ("Dr. Smith is here. ".toList)).1 ≠
      [("Dr. Smith is here. ".toList)] := by
  exact ⟨by decide, by decide⟩

/-! ## Claim C3: the turn always ends with exactly one completion -/

theorem filter_completion_chunks (l : List Str) (b : Bool) :
    (l.map (fun s => AgentEvent.text_chunk s b)).filter isCompletionEv = [] := by
  induction l with
  | nil => rfl
  | cons x xs ih => simp [List.filter_cons, isCompletionEv, ih]

theorem contentStep_filter (st : StreamState) (c : Str) :
    (contentStep st c).events.filter isCompletionEv =
      st.events.filter isCompletionEv := by
  unfold contentStep
  by_cases h : c.isEmpty = true
  · rw [if_pos h]
  · rw [if_neg h]
    simp only [List.filter_append, filter_completion_chunks, List.append_nil]

theorem primDeltaStep_filter (st : StreamState) (d : StreamDelta) :
    (primDeltaStep st d).events.filter isCompletionEv =
      st.events.filter isCompletionEv := by
  unfold primDeltaStep
  by_cases h : d.tool_calls.isEmpty = true
  · rw [if_pos h, contentStep_filter]
  · rw [if_neg h, contentStep_filter]

theorem foldl_prim_filter (ds : List StreamDelta) : ∀ st : StreamState,
    (ds.foldl primDeltaStep st).events.filter isCompletionEv =
      st.events.filter isCompletionEv := by
  induction ds with
  | nil => intro st; rfl
  | cons d ds ih =>
    intro st
    rw [List.foldl_cons, ih (primDeltaStep st d), primDeltaStep_filter]

theorem foldl_sec_filter (ds : List StreamDelta) : ∀ st : StreamState,
    (ds.foldl secDeltaStep st).events.filter isCompletionEv =
      st.events.filter isCompletionEv := by
  induction ds with
  | nil => intro st; rfl
  | cons d ds ih =>
    intro st
    rw [List.foldl_cons, ih (secDeltaStep st d)]
    unfold secDeltaStep
    rw [contentStep_filter]

theorem apology_props (pre : List AgentEvent)
    (h : pre.filter isCompletionEv = []) :
    ((pre ++ apologyEvents).filter isCompletionEv).length = 1 ∧
    (pre ++ apologyEvents).getLast? = some (AgentEvent.completion apologyMsg) := by
  constructor
  · rw [List.filter_append, h]
    simp [apologyEvents, List.filter_cons, isCompletionEv]
  · rw [show pre ++ apologyEvents =
      (pre ++ [AgentEvent.text_chunk apologyMsg true]) ++
        [AgentEvent.completion apologyMsg] from by simp [apologyEvents]]
    exact List.getLast?_concat _

theorem finishEvents_props (st : StreamState)
    (h : st.events.filter isCompletionEv = []) :
    ((finishEvents st).filter isCompletionEv).length = 1 ∧
    (finishEvents st).getLast? = some (AgentEvent.completion st.full) := by
  constructor
  · unfold finishEvents
    rw [List.filter_append, List.filter_append, h]
    have hx : (if hasNonSpace st.buffer
        then [AgentEvent.text_chunk st.buffer true] else []).filter
          isCompletionEv = [] := by
      by_cases hb : hasNonSpace st.buffer = true <;>
        simp [hb, List.filter_cons, isCompletionEv]
    rw [hx]
    simp [List.filter_cons, isCompletionEv]
  · exact List.getLast?_concat _

/-- Claim C3: for every scripted provider behavior (no tool calls, tool
calls, unparseable tool arguments — the executor is total — or a
provider exception at any point in either stream), one run of
`process_message_streaming` yields exactly one `completion` event and
it is the last event; and when the primary call itself fails before
producing any delta, the run yields exactly the apologetic `text_chunk`
followed by the `completion` carrying the same apologetic text. -/
theorem turn_always_completes {α : Type} (env : ToolEnv α) (script : Script) :
    ((process_message_streaming env script).filter isCompletionEv).length = 1 ∧
    (∃ f, (process_message_streaming env script).getLast? =
      some (AgentEvent.completion f)) ∧
    (script.primary = [] → script.primary_fails = true →
      process_message_streaming env script = apologyEvents) := by
  have hpe : (primEnd script).events.filter isCompletionEv = [] := by
    unfold primEnd
    rw [foldl_prim_filter]
    rfl
  have hse : (script.secondary.foldl secDeltaStep
      (primEnd script)).events.filter isCompletionEv = [] := by
    rw [foldl_sec_filter]
    exact hpe
  unfold process_message_streaming
  by_cases h1 : script.primary_fails = true
  · simp only [h1, if_true]
    refine ⟨(apology_props _ hpe).1, ⟨apologyMsg, (apology_props _ hpe).2⟩, ?_⟩
    intro hp _
    have hinit : primEnd script = initState := by
      unfold primEnd
      rw [hp]
      rfl
    rw [hinit]
    rfl
  · simp only [h1, Bool.false_eq_true, if_false]
    by_cases h2 : (finalizeCalls (primEnd script)).isEmpty = true
    · simp only [h2, if_true]
      refine ⟨(finishEvents_props _ hpe).1,
        ⟨(primEnd script).full, (finishEvents_props _ hpe).2⟩, ?_⟩
      intro _ hf
      exact hf.elim
    · simp only [h2, Bool.false_eq_true, if_false]
      by_cases h3 : script.secondary_fails = true
      · simp only [h3, if_true]
        refine ⟨(apology_props _ hse).1, ⟨apologyMsg, (apology_props _ hse).2⟩, ?_⟩
        intro _ hf
        exact hf.elim
      · simp only [h3, Bool.false_eq_true, if_false]
        refine ⟨(finishEvents_props _ hse).1,
          ⟨_, (finishEvents_props _ hse).2⟩, ?_⟩
        intro _ hf
        exact hf.elim

/-- Witness for C3 at a primary call that fails before any delta. -/
theorem turn_always_completes_witness :
    ((process_message_streaming envU failScript).filter isCompletionEv).length
      = 1 ∧
    process_message_streaming envU failScript = apologyEvents :=
  ⟨(turn_always_completes envU failScript).1,
   (turn_always_completes envU failScript).2.2 rfl rfl⟩

/-! ## Claim C8: end-of-stream buffer flush -/

/-- Claim C8 (amended): at end-of-stream, in both agents, a retained
sentence buffer containing a non-whitespace character
(`sentence_buffer.strip()` truthy) is emitted whole as one final
`text_chunk` right before the `completion` event — for the optimized
agent on every run in which neither provider stream raised (a raise is
answered by the apology events, which flush nothing), and for the fast
agent, which has no exception handler, on every successful run.  A
non-empty but all-whitespace buffer is NOT flushed in either agent; see
the counterexample. -/
theorem final_buffer_flush :
    (∀ {α : Type} (env : ToolEnv α) (script : Script),
      script.primary_fails = false →
      script.secondary_fails = false →
      hasNonSpace (finalChunkState script).buffer = true →
      process_message_streaming env script =
        (finalChunkState script).events ++
          [AgentEvent.text_chunk (finalChunkState script).buffer true,
           AgentEvent.completion (finalChunkState script).full]) ∧
    (∀ fs : FastScript,
      hasNonSpace (fastFinalState fs).buffer = true →
      fast_process_streaming fs =
        (fastFinalState fs).events ++
          [AgentEvent.text_chunk (fastFinalState fs).buffer true,
           AgentEvent.completion (fastFinalState fs).full]) := by
  constructor
  · intro α env script h1 h2 h3
    unfold process_message_streaming
    simp only [h1, Bool.false_eq_true, if_false]
    by_cases ht : (finalizeCalls (primEnd script)).isEmpty = true
    · have hfc : finalChunkState script = primEnd script := by
        unfold finalChunkState
        rw [if_pos ht]
      rw [hfc] at h3 ⊢
      simp only [ht, if_true]
      unfold finishEvents
      rw [h3]
      simp
    · have hfc : finalChunkState script =
          script.secondary.foldl secDeltaStep (primEnd script) := by
        unfold finalChunkState
        rw [if_neg ht]
      rw [hfc] at h3 ⊢
      simp only [ht, Bool.false_eq_true, if_false, h2]
      unfold finishEvents
      rw [h3]
      simp
  · intro fs h
    unfold fast_process_streaming
    rw [h]
    simp

/-- Witness for C8 at one-delta scripts streaming `Hello` through each
agent. -/
theorem final_buffer_flush_witness :
    hasNonSpace (finalChunkState helloScript).buffer = true ∧
    process_message_streaming envU helloScript =
      (finalChunkState helloScript).events ++
        [AgentEvent.text_chunk (finalChunkState helloScript).buffer true,
         AgentEvent.completion (finalChunkState helloScript).full] ∧
    hasNonSpace (fastFinalState fastHelloScript).buffer = true ∧
    fast_process_streaming fastHelloScript =
      (fastFinalState fastHelloScript).events ++
        [AgentEvent.text_chunk (fastFinalState fastHelloScript).buffer true,
         AgentEvent.completion (fastFinalState fastHelloScript).full] :=
  ⟨by decide, final_buffer_flush.1 envU helloScript rfl rfl (by decide),
   by decide, final_buffer_flush.2 fastHelloScript (by decide)⟩

/-- Counterexample for C8 as stated: in both agents, a run whose final
buffer is the non-empty whitespace string of one space is not flushed —
each run yields only the completion, with no final `text_chunk`. -/
theorem final_buffer_flush_counterexample :
    (finalChunkState blankScript).buffer = (" ".toList) ∧
    (fastFinalState fastBlankScript).buffer = (" ".toList) ∧
    ((" ".toList : Str) ≠ []) ∧
    process_message_streaming envU blankScript =
      [AgentEvent.completion (" ".toList)] ∧
    fast_process_streaming fastBlankScript =
      [AgentEvent.completion (" ".toList)] := by
  exact ⟨by decide, by decide, by decide, by decide, by decide⟩

/-! ## Claim C4: tool execution isolation in the optimized executor -/

theorem execute_tools_foldl (env : ToolEnv α) (calls : List ToolCallRec) :
    ∀ acc, calls.foldl (fun results tc => results ++ [execOneOpt env tc]) acc =
      acc ++ calls.map (execOneOpt env) := by
  induction calls with
  | nil => intro acc; simp
  | cons tc tcs ih =>
    intro acc
    rw [List.foldl_cons, ih (acc ++ [execOneOpt env tc])]
    simp

theorem execute_tools_eq_map {α : Type} (env : ToolEnv α)
    (calls : List ToolCallRec) :
    execute_tools env calls = calls.map (execOneOpt env) := by
  unfold execute_tools
  rw [execute_tools_foldl env calls []]
  rfl

theorem execOneOpt_eq {α : Type} (env : ToolEnv α) (tc : ToolCallRec) :
    execOneOpt env tc =
      match (if tc.arguments.isEmpty then Except.ok env.emptyArgs
        else env.parse tc.arguments) with
      | .error e => ⟨tc.id, .failure e⟩
      | .ok args =>
        if allowedName tc.name then
          match env.tools (pyShowName tc.name) with
          | none => ⟨tc.id, .failure (toolNotFoundMsg (pyShowName tc.name))⟩
          | some run =>
            match run args with
            | .error e => ⟨tc.id, .failure e⟩
            | .ok data => ⟨tc.id, .success_data data⟩
        else
          ⟨tc.id, .failure (("Unknown tool: ".toList) ++ pyShowName tc.name)⟩ :=
  rfl

/-- Claim C4 (amended, for `OptimizedVoiceAgent._execute_tools`): every
tool call receives exactly one result, in order, determined by that
call alone (so a failure for one call cannot affect any other); every
result carries its call's id; an argument-parse failure, an unknown
tool name, and an exception raised by the tool each produce a
`success: False` result with the error message for that call only —
the executor itself is a total function, so no exception propagates.
(`FastVoiceAgent._execute_tools` violates the one-result-per-call
clause; see the counterexample.) -/
theorem tool_execution_isolation {α : Type} (env : ToolEnv α)
    (calls : List ToolCallRec) :
    (execute_tools env calls).length = calls.length ∧
    (∀ i : Nat, (execute_tools env calls)[i]? =
      (calls[i]?).map (execOneOpt env)) ∧
    (∀ tc : ToolCallRec, (execOneOpt env tc).tool_call_id = tc.id) ∧
    (∀ tc : ToolCallRec, ∀ e, tc.arguments.isEmpty = false →
      env.parse tc.arguments = .error e →
      execOneOpt env tc = ⟨tc.id, .failure e⟩) ∧
    (∀ tc : ToolCallRec, ∀ args,
      (if tc.arguments.isEmpty then Except.ok env.emptyArgs
        else env.parse tc.arguments) = .ok args →
      allowedName tc.name = false →
      execOneOpt env tc =
        ⟨tc.id, .failure (("Unknown tool: ".toList) ++ pyShowName tc.name)⟩) ∧
    (∀ tc : ToolCallRec, ∀ args run e,
      (if tc.arguments.isEmpty then Except.ok env.emptyArgs
        else env.parse tc.arguments) = .ok args →
      allowedName tc.name = true →
      env.tools (pyShowName tc.name) = some run →
      run args = .error e →
      execOneOpt env tc = ⟨tc.id, .failure e⟩) := by
  refine ⟨?_, ?_, ?_, ?_, ?_, ?_⟩
  · rw [execute_tools_eq_map]
    exact List.length_map _ _
  · intro i
    rw [execute_tools_eq_map]
    exact List.getElem?_map _ _ _
  · intro tc
    rw [execOneOpt_eq]
    rcases h : (if tc.arguments.isEmpty then Except.ok env.emptyArgs
        else env.parse tc.arguments) with e | args
    · rfl
    · by_cases ha : allowedName tc.name = true
      · simp only [ha, if_true]
        rcases ht : env.tools (pyShowName tc.name) with _ | run
        · rfl
        · have hx : ∀ x : Except Str Str,
              (match x with
                | Except.error e =>
                  ({ tool_call_id := tc.id,
                     content := RContent.failure e } : ToolResult)
                | Except.ok data =>
                  { tool_call_id := tc.id,
                    content := RContent.success_data data }).tool_call_id =
                tc.id := by
            intro x
            rcases x with e | d <;> rfl
          exact hx (run args)
      · simp [ha]
  · intro tc e hne hp
    rw [execOneOpt_eq, hne]
    simp [hp]
  · intro tc args hok ha
    rw [execOneOpt_eq, hok]
    simp [ha]
  · intro tc args run e hp ha ht hr
    rw [execOneOpt_eq, hp]
    simp [ha, ht, hr]

/-- Witness for C4 at the sample environment and calls: four calls,
four results in order with matching ids; the unknown name, the parse
failure and the raising tool each yield their own failure result. -/
theorem tool_execution_isolation_witness :
    (execute_tools envSample callsSample).length = callsSample.length ∧
    (execute_tools envSample callsSample)[0]? =
      (callsSample[0]?).map (execOneOpt envSample) ∧
    execOneOpt envSample ⟨("id1".toList), some ("mystery".toList), ("x".toList)⟩ =
      ⟨("id1".toList),
        .failure (("Unknown tool: ".toList) ++ ("mystery".toList))⟩ ∧
    execOneOpt envSample
        ⟨("id2".toList), some ("get_product_catalog".toList), ("bad".toList)⟩ =
      ⟨("id2".toList), .failure ("parse error".toList)⟩ ∧
    execOneOpt envSample
        ⟨("id3".toList), some ("get_product_catalog".toList), []⟩ =
      ⟨("id3".toList), .failure ("boom".toList)⟩ := by
  have h := tool_execution_isolation envSample callsSample
  refine ⟨h.1, h.2.1 0, ?_, ?_, ?_⟩
  · exact h.2.2.2.2.1 ⟨("id1".toList), some ("mystery".toList), ("x".toList)⟩
      () (by rfl) (by decide)
  · exact h.2.2.2.1 ⟨("id2".toList), some ("get_product_catalog".toList),
      ("bad".toList)⟩ ("parse error".toList) (by decide) (by rfl)
  · exact h.2.2.2.2.2 ⟨("id3".toList), some ("get_product_catalog".toList), []⟩
      () (fun _ => .error ("boom".toList)) ("boom".toList) (by rfl)
      (by decide) (by rfl) (by rfl)

/-- Counterexample for C4 as stated: the fast agent's executor appends
no result at all for an unknown tool name — the call `call_1` receives
zero results instead of one failure result. -/
theorem tool_execution_counterexample :
    fast_execute_tools (fun _ => none)
      [({ name := ("search_products".toList), args := (),
          id := ("call_1".toList) } : FastToolCall Unit)] = [] ∧
    (fast_execute_tools (fun _ => none)
      [({ name := ("search_products".toList), args := (),
          id := ("call_1".toList) } : FastToolCall Unit)]).length ≠
      [({ name := ("search_products".toList), args := (),
          id := ("call_1".toList) } : FastToolCall Unit)].length := by
  exact ⟨rfl, by decide⟩

/-! ## Claim C7: synthesis per chunk in the session handler -/

/-- Claim C7 (amended): for each triggering `text_chunk` event the
handler emits `text.chunk` and then attempts synthesis, emitting
`audio.chunk` on success and NO outbound message when synthesis fails
or raises (the failure is only logged — no error event is sent); a
synthesis failure never aborts the loop: the fold continues with only
the chunk counter threaded through, and the final `agent.response`
with the full text and the trigger-chunk count is still emitted. -/
theorem text_input_synthesis_spec :
    (∀ tts : Str → Except Str TtsResponse, ∀ st : Nat × List OutMsg, ∀ s : Str,
      handleEvent tts st (.text_chunk s true) =
        (st.1 + 1,
          st.2 ++ [OutMsg.text_chunk_msg s (st.1 + 1)] ++
            (match tts s with
             | .ok r =>
               if r.success then
                 [OutMsg.audio_chunk_msg r.audio_base64 r.format (st.1 + 1) s]
               else []
             | .error _ => []))) ∧
    (∀ tts : Str → Except Str TtsResponse, ∀ st : Nat × List OutMsg, ∀ f : Str,
      handleEvent tts st (.completion f) =
        (st.1, st.2 ++ [OutMsg.agent_response f st.1])) ∧
    (∀ tts : Str → Except Str TtsResponse, ∀ evs : List AgentEvent,
      ∀ st : Nat × List OutMsg,
      (evs.foldl (handleEvent tts) st).1 =
        st.1 + (evs.filter isTriggerChunk).length) ∧
    (∀ tts : Str → Except Str TtsResponse, ∀ pre : List AgentEvent, ∀ f : Str,
      ∃ msgs, handle_text_input tts (pre ++ [.completion f]) =
        msgs ++ [OutMsg.agent_response f (pre.filter isTriggerChunk).length]) := by
  have hcount : ∀ tts : Str → Except Str TtsResponse, ∀ evs : List AgentEvent,
      ∀ st : Nat × List OutMsg,
      (evs.foldl (handleEvent tts) st).1 =
        st.1 + (evs.filter isTriggerChunk).length := by
    intro tts evs
    induction evs with
    | nil => intro st; simp
    | cons ev evs ih =>
      intro st
      rw [List.foldl_cons, ih (handleEvent tts st ev)]
      have hfst : (handleEvent tts st ev).1 =
          st.1 + (if isTriggerChunk ev then 1 else 0) := by
        rcases ev with ⟨s, b⟩ | f
        · rcases b with _ | _
          · simp [handleEvent, isTriggerChunk]
          · unfold handleEvent
            rcases h : tts s with e | r
            · simp [h, isTriggerChunk]
            · by_cases hs : r.success = true <;> simp [h, hs, isTriggerChunk]
        · simp [handleEvent, isTriggerChunk]
      rw [hfst, List.filter_cons]
      by_cases hb : isTriggerChunk ev = true <;> simp [hb] <;> try omega
  refine ⟨?_, ?_, hcount, ?_⟩
  · intro tts st s
    unfold handleEvent
    rcases h : tts s with e | r
    · simp [h, List.append_assoc]
    · by_cases hs : r.success = true <;> simp [h, hs, List.append_assoc]
  · intro tts st f
    rfl
  · intro tts pre f
    refine ⟨(pre.foldl (handleEvent tts) (0, [])).2, ?_⟩
    have hstep : ∀ st : Nat × List OutMsg,
        (List.foldl (handleEvent tts) st [AgentEvent.completion f]).2 =
          st.2 ++ [OutMsg.agent_response f st.1] := fun st => rfl
    unfold handle_text_input
    rw [List.foldl_append, hstep, hcount tts pre (0, [])]
    simp

/-- Counterexample for C7 as stated: with a TTS stub that always
reports failure, the handler emits the `text.chunk` and the final
`agent.response` but no error event at all (and no audio) — synthesis
failure is only logged. -/
theorem text_input_no_error_event :
    handle_text_input ttsAlwaysFail demoEvents =
      [OutMsg.text_chunk_msg ("Hi. ".toList) 1,
       OutMsg.agent_response ("Hi. ".toList) 1] ∧
    (handle_text_input ttsAlwaysFail demoEvents).all
      (fun m => !isErrorMsg m) = true := by
  exact ⟨by decide, by decide⟩

end VoiceAgent

